import Mathlib

/-!
Verification of the `names` package of aws-controllers-k8s/pkg.

The Go source (names.go) is embedded shallowly: strings are `List Char`,
Go standard-library string functions (`strings.Index`, `strings.Replace`,
`strings.Trim`) are modelled directly, and each `regexp2` matcher of the
initialism rule table is modelled as an explicit fixed-length pattern with
negative-lookahead exclusion lists, as licensed by the specification
(section 7: an implementation may realise each matcher as a plain substring
search plus explicit prefix/suffix-exclusion predicates).

The word-boundary caser (`strcase.ToCamel` / `ToLowerCamel` / `ToSnake`)
is a third-party dependency whose source is not part of this repository;
it is modelled from the specification, section 4.1 (see `toPascal`,
`toLowerCamel`, `toSnake` below).
-/

namespace AwsNames

/-- A Go string, modelled as its list of characters (all inputs of interest
are ASCII, where Go byte indices coincide with character indices). -/
abbrev Str := List Char

/-- Go `strings.Index s pat`: index of the first occurrence of `pat` in `s`,
`none` when absent (Go returns -1). -/
def stringsIndex (s pat : Str) : Option Nat :=
  if pat.isPrefixOf s then
    some 0
  else
    match s with
    | [] => none
    | _ :: rest => (stringsIndex rest pat).map (· + 1)

/-- Auxiliary worker for `stringsReplace`; `fuel` bounds the recursion by the
length of the subject string. -/
def replAux (old new : Str) : Nat → Option Nat → Str → Str
  | 0, _, s => s
  | _ + 1, some 0, s => s
  | fuel + 1, count, s =>
    match s with
    | [] => []
    | c :: rest =>
      if old.isPrefixOf (c :: rest) then
        new ++ replAux old new fuel (count.map (· - 1)) ((c :: rest).drop old.length)
      else
        c :: replAux old new fuel count rest

/-- Go `strings.Replace s old new n`: replaces the first `n` non-overlapping
occurrences of `old` by `new`, scanning left to right (`count = none` models
`n = -1`, i.e. no limit). -/
def stringsReplace (s old new : Str) (count : Option Nat) : Str :=
  if old = [] then s else replAux old new s.length count s

/-- Removes the leading run of underscores (half of Go
`strings.Trim s "_"`). -/
def trimHead (s : Str) : Str := s.dropWhile (fun c => c = '_')

/-- Removes the trailing run of underscores (other half of Go
`strings.Trim s "_"`). -/
def trimTail : Str → Str
  | [] => []
  | c :: rest =>
    match trimTail rest with
    | [] => if c = '_' then [] else [c]
    | r => c :: r

/-- Go `strings.Trim s "_"`. -/
def stringsTrimUnderscore (s : Str) : Str := trimTail (trimHead s)

/-! ### The word-boundary caser

Modelled from the spec: the generic caser is the third-party `strcase`
library, whose source is not part of this repository.  Section 4.1 of the
specification describes it: a raw token is split into words at a transition
from a lowercase/digit character to an uppercase character, at explicit
delimiters (underscore, hyphen, space), and before digit runs that follow
letters; Pascal casing upper-cases each word's first character, lowerCamel
casing lower-cases the whole first word and upper-cases the first character
of every later word, and snake casing lower-cases every word and joins the
words with single underscores. -/

/-- An explicit word delimiter of the word-boundary caser (spec 4.1). -/
def isDelim (c : Char) : Bool := c = '_' || c = '-' || c = ' '

/-- A word boundary between adjacent characters (spec 4.1): a transition
from a lowercase/digit character to an uppercase character, or a letter
followed by a digit. -/
def isBoundary (a b : Char) : Bool :=
  ((a.isLower || a.isDigit) && b.isUpper) || (a.isAlpha && b.isDigit)

/-- Worker for `splitWords`: `cur` is the current word, reversed. -/
def splitAux : Str → Str → List Str
  | cur, [] => if cur = [] then [] else [cur.reverse]
  | cur, c :: rest =>
    if isDelim c then
      if cur = [] then splitAux [] rest else cur.reverse :: splitAux [] rest
    else
      match cur with
      | [] => splitAux [c] rest
      | p :: _ =>
        if isBoundary p c then cur.reverse :: splitAux [c] rest
        else splitAux (c :: cur) rest

/-- Modelled from the spec (4.1): split a raw token into its words. -/
def splitWords (s : Str) : List Str := splitAux [] s

/-- Upper-case the first character of a word. -/
def capWord : Str → Str
  | [] => []
  | c :: rest => c.toUpper :: rest

/-- Lower-case a whole word. -/
def lowWord (w : Str) : Str := w.map Char.toLower

/-- Modelled from the spec (4.1): `strcase.ToCamel`, PascalCase. -/
def toPascal (s : Str) : Str := ((splitWords s).map capWord).flatten

/-- Modelled from the spec (4.1): `strcase.ToLowerCamel`; the first word is
lower-cased, every later word has its first character upper-cased. -/
def toLowerCamel (s : Str) : Str :=
  match splitWords s with
  | [] => []
  | w :: ws => lowWord w ++ (ws.map capWord).flatten

/-- Modelled from the spec (4.1): `strcase.ToSnake`; words lower-cased and
joined with single underscores. -/
def toSnake (s : Str) : Str :=
  List.intercalate ['_'] ((splitWords s).map lowWord)

/-! ### Matchers

Each `regexp2` pattern of the rule table is a fixed-length core (a sequence
of character classes, e.g. `[Ee]cr` or the case-insensitive `(?i)ttl`),
optionally guarded by negative lookaheads checked at the match position
(`(?!S|s|D|d)...`) and negative lookaheads checked after the core
(`...(?!et|ease)`), possibly with several alternative branches (`HTTP(...)`
or `Http(...)`).  All branches of one pattern have the same core length.
This follows spec section 7: exclusions become explicit predicates over the
characters surrounding a found substring match. -/

/-- A character-class pattern: one set of admissible characters per
position. -/
abbrev ClassPat := List (List Char)

/-- One alternation branch of a matcher: negative lookaheads tested at the
match position, the fixed-length core, and negative lookaheads tested just
after the core. -/
structure MBranch where
  pre : List ClassPat
  core : ClassPat
  post : List ClassPat
deriving DecidableEq

/-- A compiled rule matcher: an ordered list of alternation branches, all
with cores of equal length. -/
structure Matcher where
  branches : List MBranch
deriving DecidableEq

/-- The (common) core length of a matcher's branches. -/
def Matcher.len (m : Matcher) : Nat :=
  match m.branches with
  | [] => 0
  | b :: _ => b.core.length

/-- Does the class pattern match a prefix of `t`? -/
def classPre : ClassPat → Str → Bool
  | [], _ => true
  | _ :: _, [] => false
  | cs :: ps, c :: t => cs.contains c && classPre ps t

/-- Does branch `b` match at the start of `t`? -/
def branchAt (b : MBranch) (t : Str) : Bool :=
  (b.pre.all fun p => !classPre p t) &&
  classPre b.core t &&
  (b.post.all fun p => !classPre p (t.drop b.core.length))

/-- Does matcher `m` match at position `i` of `s`? -/
def matchesAt (m : Matcher) (s : Str) (i : Nat) : Bool :=
  m.branches.any fun b => branchAt b (s.drop i)

/-- Worker for `mfind`. -/
def mfindAux (m : Matcher) (s : Str) : Nat → Nat → Option Nat
  | _, 0 => none
  | i, fuel + 1 => if matchesAt m s i then some i else mfindAux m s (i + 1) fuel

/-- `regexp2` `FindStringMatch`-style search: index of the first match of
`m` in `s` at or after position `start`. -/
def mfind (m : Matcher) (s : Str) (start : Nat) : Option Nat :=
  mfindAux m s start (s.length + 1 - start)

/-- Worker for `reReplace`: replaces matches found at or after `pos`,
scanning left to right without rescanning replaced text. -/
def reReplaceAux (m : Matcher) (repl : Str) (s : Str) : Nat → Option Nat → Nat → Str
  | pos, _, 0 => s.drop pos
  | pos, some 0, _ + 1 => s.drop pos
  | pos, count, fuel + 1 =>
    match mfind m s pos with
    | none => s.drop pos
    | some i =>
      ((s.drop pos).take (i - pos)) ++ repl ++
        reReplaceAux m repl s (i + m.len) (count.map (· - 1)) fuel

/-- `regexp2` `Replace(s, repl, startAt, count)`: text before `startAt` is
kept, then up to `count` matches (all of them for `count = none`, modelling
Go's `-1`) are replaced by `repl`. -/
def reReplace (m : Matcher) (s repl : Str) (startAt : Nat) (count : Option Nat) : Str :=
  s.take startAt ++ reReplaceAux m repl s startAt count (s.length + 1)

/-- A literal (single-character-alternative) class pattern. -/
def litp (s : String) : ClassPat := s.data.map (fun c => [c])

/-- A character class, written as the string of its members. -/
def cls (s : String) : List Char := s.data

/-- A one-branch matcher. -/
def m1 (pre : List ClassPat) (core : ClassPat) (post : List ClassPat) : Matcher :=
  ⟨[⟨pre, core, post⟩]⟩

/-! ### The initialism rule table -/

/-- One entry of the rule table (`initialismTranslator` in the source):
the CamelCased initialism, its uppercase and lowercase representations, and
an optional context-sensitive matcher. -/
structure initialismTranslator where
  camel : Str
  upper : Str
  lower : Str
  re : Option Matcher
deriving DecidableEq

/-- A matcher-less rule table entry. -/
def trx (c u l : String) : initialismTranslator := ⟨c.data, u.data, l.data, none⟩

/-- A rule table entry with a context-sensitive matcher. -/
def trxR (c u l : String) (m : Matcher) : initialismTranslator :=
  ⟨c.data, u.data, l.data, some m⟩

/-- The uppercase ASCII letters, the character class `[A-Z]`. -/
def azUpper : List Char := cls "ABCDEFGHIJKLMNOPQRSTUVWXYZ"

/-- The ordered initialism rule table (source lines 44-200).  Order is
semantically load-bearing: e.g. the `"Dbi"` rule runs before the `"Db"`
rule. -/
def initialisms : List initialismTranslator := [
  -- {"Ids", "IDs", "ids", re2.MustCompile("(?![U|u])Ids", re2.None)}
  trxR "Ids" "IDs" "ids" (m1 [[cls "U|u"]] (litp "Ids") []),
  -- {"Id", "ID", "id", re2.MustCompile("Id(?!entifier|le|entity|empotency)", re2.None)}
  trxR "Id" "ID" "id"
    (m1 [] (litp "Id") [litp "entifier", litp "le", litp "entity", litp "empotency"]),
  -- {"Dbi", "DBI", "dbi", re2.MustCompile("Dbi", re2.None)}
  trxR "Dbi" "DBI" "dbi" (m1 [] (litp "Dbi") []),
  -- {"Db", "DB", "db", re2.MustCompile("Db(?!i)", re2.None)}
  trxR "Db" "DB" "db" (m1 [] (litp "Db") [litp "i"]),
  -- {"Db", "DB", "db", re2.MustCompile("DB", re2.None)}
  trxR "Db" "DB" "db" (m1 [] (litp "DB") []),
  -- {"CACert", "CACert", "caCert", re2.MustCompile("CACert", re2.None)}
  trxR "CACert" "CACert" "caCert" (m1 [] (litp "CACert") []),
  -- {"MD5Of", "MD5Of", "md5Of", re2.MustCompile("M[dD]5Of", re2.None)}
  trxR "MD5Of" "MD5Of" "md5Of"
    (m1 [] [cls "M", cls "dD", cls "5", cls "O", cls "f"] []),
  -- {"Ipc", "IPC", "ipc", re2.MustCompile("Ipc", re2.None)}
  trxR "Ipc" "IPC" "ipc" (m1 [] (litp "Ipc") []),
  -- {"IPAddress", "IPAddress", "ip_address", nil}
  trx "IPAddress" "IPAddress" "ip_address",
  -- {"IPv4", "IPv4", "ipv4", re2.MustCompile("I[Pp]v4", re2.None)}
  trxR "IPv4" "IPv4" "ipv4" (m1 [] [cls "I", cls "Pp", cls "v", cls "4"] []),
  -- {"IPv6", "IPv6", "ipv6", re2.MustCompile("I[Pp]v6", re2.None)}
  trxR "IPv6" "IPv6" "ipv6" (m1 [] [cls "I", cls "Pp", cls "v", cls "6"] []),
  -- {"Ip", "IP", "ip", re2.MustCompile("Ip(?!art|am)", re2.None)}
  trxR "Ip" "IP" "ip" (m1 [] (litp "Ip") [litp "art", litp "am"]),
  -- {"IPSet", "IPSet", "ip_set", nil}
  trx "IPSet" "IPSet" "ip_set",
  -- {"Amis", "AMIs", "amis", re2.MustCompile("Amis", re2.None)}
  trxR "Amis" "AMIs" "amis" (m1 [] (litp "Amis") []),
  -- {"Ami", "AMI", "ami", re2.MustCompile("Ami", re2.None)}
  trxR "Ami" "AMI" "ami" (m1 [] (litp "Ami") []),
  trx "Acl" "ACL" "acl",
  trx "Acm" "ACM" "acm",
  trx "AIML" "AIML" "aiml",
  trx "Acp" "ACP" "acp",
  trx "Api" "API" "api",
  trx "Arn" "ARN" "arn",
  trx "Asn" "ASN" "asn",
  -- {"Awsvpc", "AWSVPC", "awsVPC", nil}
  trx "Awsvpc" "AWSVPC" "awsVPC",
  trx "Aws" "AWS" "aws",
  trx "Az" "AZ" "az",
  trx "Bgp" "BGP" "bgp",
  trx "Cors" "CORS" "cors",
  trx "Cidr" "CIDR" "cidr",
  trx "Cname" "CNAME" "cname",
  trx "Cpu" "CPU" "cpu",
  trx "Crl" "CRL" "crl",
  trx "Cps" "CPS" "cps",
  trx "Csr" "CSR" "csr",
  trx "Dhcp" "DHCP" "dhcp",
  trx "Dns" "DNS" "dns",
  trx "Dpd" "DPD" "dpd",
  trx "Ebs" "EBS" "ebs",
  trx "Ec2" "EC2" "ec2",
  -- {"Ecr", "ECR", "ecr", re2.MustCompile("(?!S|s|D|d)[Ee]cr(?!et|ease)", re2.None)}
  trxR "Ecr" "ECR" "ecr"
    (m1 [litp "S", litp "s", litp "D", litp "d"] [cls "Ee", cls "c", cls "r"]
      [litp "et", litp "ease"]),
  trx "Ecs" "ECS" "ecs",
  -- {"Edi", "EDI", "edi", re2.MustCompile("Edi(?!t)", re2.None)}
  trxR "Edi" "EDI" "edi" (m1 [] (litp "Edi") [litp "t"]),
  trx "Efs" "EFS" "efs",
  trx "Eks" "EKS" "eks",
  -- {"Ena", "ENA", "ena", re2.MustCompile("Ena(?!bl)", re2.None)}
  trxR "Ena" "ENA" "ena" (m1 [] (litp "Ena") [litp "bl"]),
  trx "Ecmp" "ECMP" "ecmp",
  trx "Fifo" "FIFO" "fifo",
  trx "Fpga" "FPGA" "fpga",
  trx "Gid" "GID" "gid",
  trx "Gpu" "GPU" "gpu",
  trx "Grpc" "GRPC" "grpc",
  trx "Html" "HTML" "html",
  -- {"Http", "HTTP", "http", re2.MustCompile("(HTTP((?!S[A-Z]))|Http(?!s))", re2.None)}
  trxR "Http" "HTTP" "http"
    ⟨[⟨[], litp "HTTP", [[cls "S", azUpper]]⟩, ⟨[], litp "Http", [litp "s"]⟩]⟩,
  trx "Https" "HTTPS" "https",
  trx "Iam" "IAM" "iam",
  trx "Icmp" "ICMP" "icmp",
  -- {"Io", "IO", "io", re2.MustCompile("Io(?!ps)", re2.None)}
  trxR "Io" "IO" "io" (m1 [] (litp "Io") [litp "ps"]),
  trx "Iops" "IOPS" "iops",
  trx "Ipam" "IPAM" "ipam",
  trx "Ja3" "JA3" "ja3",
  trx "Json" "JSON" "json",
  trx "Jwt" "JWT" "jwt",
  trx "Kms" "KMS" "kms",
  trx "Ldap" "LDAP" "ldap",
  trx "Mfa" "MFA" "mfa",
  -- {"Mibps", "MiBps", "miBps", re2.MustCompile("Mibps", re2.None)}
  trxR "Mibps" "MiBps" "miBps" (m1 [] (litp "Mibps") []),
  -- {"Nat", "NAT", "nat", re2.MustCompile("Nat(?!i)", re2.None)}
  trxR "Nat" "NAT" "nat" (m1 [] (litp "Nat") [litp "i"]),
  -- {"Oid", "OID", "oid", re2.MustCompile("Oid(?!c)", re2.None)}
  trxR "Oid" "OID" "oid" (m1 [] (litp "Oid") [litp "c"]),
  -- {"OID", "OID", "oid", re2.MustCompile("OID(?!C)", re2.None)}
  trxR "OID" "OID" "oid" (m1 [] (litp "OID") [litp "C"]),
  trx "Oidc" "OIDC" "oidc",
  trx "Ocsp" "OCSP" "ocsp",
  trx "Pca" "PCA" "pca",
  trx "Pid" "PID" "pid",
  -- {"Ramdisk", "RAMDisk", "ramDisk", re2.MustCompile("Ramdisk", re2.None)}
  trxR "Ramdisk" "RAMDisk" "ramDisk" (m1 [] (litp "Ramdisk") []),
  -- {"Ram", "RAM", "ram", re2.MustCompile("Ram", re2.None)}
  trxR "Ram" "RAM" "ram" (m1 [] (litp "Ram") []),
  trx "Rfc" "RFC" "rfc",
  trx "Sasl" "SASL" "sasl",
  trx "Scram" "SCRAM" "scram",
  trx "Sdk" "SDK" "sdk",
  trx "Sha256" "SHA256" "sha256",
  trx "Sns" "SNS" "sns",
  trx "Sqli" "SQLI" "sqli",
  trx "Sql" "SQL" "sql",
  trx "Sqs" "SQS" "sqs",
  trx "Sriov" "SRIOV" "sriov",
  trx "Sse" "SSE" "sse",
  trx "Ssl" "SSL" "ssl",
  trx "Tcp" "TCP" "tcp",
  trx "Tde" "TDE" "tde",
  trx "Tpm" "TPM" "tpm",
  trx "Tls" "TLS" "tls",
  -- {"Ttl", "TTL", "ttl", re2.MustCompile("(?!Thro)((?i)ttl)(?!ing|e)", re2.None)}
  trxR "Ttl" "TTL" "ttl"
    (m1 [litp "Thro"] [cls "tT", cls "tT", cls "lL"] [litp "ing", litp "e"]),
  trx "Udp" "UDP" "udp",
  -- {"Uri", "URI", "uri", re2.MustCompile("(?!sec)uri(?!ty)|(Uri)", re2.None)}
  trxR "Uri" "URI" "uri"
    ⟨[⟨[litp "sec"], litp "uri", [litp "ty"]⟩, ⟨[], litp "Uri", []⟩]⟩,
  trx "Url" "URL" "url",
  trx "Uuid" "UUID" "uuid",
  -- {"Uids", "UIDs", "uids", re2.MustCompile("Uids", re2.None)}
  trxR "Uids" "UIDs" "uids" (m1 [] (litp "Uids") []),
  -- {"Uid", "UID", "uid", re2.MustCompile("Uid", re2.None)}
  trxR "Uid" "UID" "uid" (m1 [] (litp "Uid") []),
  -- {"Ui", "UI", "ui", re2.MustCompile("U(I|i)(?!D|d)", re2.None)}
  trxR "Ui" "UI" "ui" (m1 [] [cls "U", cls "Ii"] [litp "D", litp "d"]),
  trx "Vlan" "VLAN" "vlan",
  trx "Vpc" "VPC" "vpc",
  trx "Vpn" "VPN" "vpn",
  trx "Vgw" "VGW" "vgw",
  trx "Waf" "WAF" "waf",
  trx "Xml" "XML" "xml",
  trx "Xss" "XSS" "xss",
  trx "Yaml" "YAML" "yaml"]

/-- The Go reserved words (source `goKeywords`). -/
def goKeywords : List Str :=
  ["break", "case", "chan", "const", "continue", "default", "defer", "else",
    "fallthrough", "for", "func", "go", "goto", "if", "import", "interface",
    "map", "package", "range", "return", "select", "struct", "switch", "type",
    "var"].map String.data

/-- `strutil.InStrings`: membership of `subject` in `collection`. -/
def InStrings (subject : Str) : List Str → Bool
  | [] => false
  | item :: rest => if subject = item then true else InStrings subject rest

/-! ### The initialism normalizer -/

/-- One iteration of the rule loop of `normalizeInitialisms` (source lines
299-385): applies rule `initTrx` to the working string `result`. -/
def applyRule (lowerFirst snake : Bool) (result : Str) (initTrx : initialismTranslator) : Str :=
  match initTrx.re with
  | none =>
    if snake then
      -- replace lower/upper occurrences with "_" + lower + "_"
      let toReplace := '_' :: (initTrx.lower ++ ['_'])
      let r1 := stringsReplace result initTrx.lower toReplace none
      stringsReplace r1 initTrx.upper toReplace none
    else
      let r0 :=
        if lowerFirst && stringsIndex result initTrx.upper = some 0 then
          stringsReplace result initTrx.upper initTrx.lower (some 1)
        else result
      match stringsIndex r0 initTrx.camel with
      | none => r0
      | some 0 =>
        let r1 :=
          if lowerFirst then stringsReplace r0 initTrx.camel initTrx.lower (some 1)
          else r0
        stringsReplace r1 initTrx.camel initTrx.upper none
      | some _ => stringsReplace r0 initTrx.camel initTrx.upper none
  | some re =>
    match mfind re result 0 with
    | none => result
    | some startFrom =>
      let toReplace :=
        if snake then '_' :: (initTrx.lower ++ ['_']) else initTrx.upper
      if lowerFirst && startFrom = 0 then
        -- lower only the first occurrence, then handle the next match found
        -- in the pre-replacement string
        let r1 := reReplace re result initTrx.lower 0 (some 1)
        match mfind re result (startFrom + re.len) with
        | none => r1
        | some startFrom2 => reReplace re r1 toReplace startFrom2 none
      else
        reReplace re result toReplace startFrom none

/-- The rule loop of `normalizeInitialisms`, before the snake-mode
cleanup. -/
def applyAllRules (original : Str) (lowerFirst snake : Bool) : Str :=
  initialisms.foldl (applyRule lowerFirst snake) original

/-- The snake-mode cleanup (source lines 386-389): a single
`strings.Replace(result, "__", "_", -1)` pass followed by
`strings.Trim(result, "_")`. -/
def snakeCleanup (s : Str) : Str :=
  stringsTrimUnderscore (stringsReplace s ['_', '_'] ['_'] none)

/-- `normalizeInitialisms` (source lines 297-391): apply every rule of the
table in order, then, in snake mode, run the delimiter cleanup. -/
def normalizeInitialisms (original : Str) (lowerFirst snake : Bool) : Str :=
  let result := applyAllRules original lowerFirst snake
  if snake then snakeCleanup result else result

/-- The reserved-word guard (source lines 273-275): append an underscore
when the result is a Go keyword. -/
def guardKeyword (result : Str) : Str :=
  if InStrings result goKeywords then result ++ ['_'] else result

/-- `goName` (source lines 255-277). -/
def goName (original : Str) (lowerFirst snake : Bool) : Str :=
  let r0 := if !lowerFirst then toPascal original else original
  let r1 := normalizeInitialisms r0 lowerFirst snake
  let r2 :=
    if lowerFirst then normalizeInitialisms (toLowerCamel r1) lowerFirst snake
    else r1
  let r3 := if snake then toSnake r2 else r2
  guardKeyword r3

/-- The variant record (source `Names`). -/
structure Names where
  Original : Str
  Camel : Str
  CamelLower : Str
  Lower : Str
  Snake : Str
  SnakeStripped : Str
deriving DecidableEq

/-- Removal of every character not matched by `[a-zA-Z0-9]`, i.e. the
replacement of `nonAlphaNumRegexp` matches by the empty string. -/
def stripNonAlphaNum (s : Str) : Str :=
  s.filter (fun c => c.isAlpha || c.isDigit)

/-- `New` (source lines 242-253). -/
def New (original : Str) : Names :=
  { Original := original
    Camel := goName original false false
    CamelLower := goName original true false
    Lower := original.map Char.toLower
    Snake := goName original false true
    SnakeStripped := stripNonAlphaNum (goName original false true) }

/-! ### Predicates for the snake-mode cleanup (claim C3) -/

/-- Does the string contain two adjacent underscores? -/
def hasDD : Str → Bool
  | c1 :: c2 :: rest => (c1 = '_' && c2 = '_') || hasDD (c2 :: rest)
  | _ => false

/-- Does the string contain three adjacent underscores? -/
def hasTriple : Str → Bool
  | c1 :: c2 :: c3 :: rest =>
    (c1 = '_' && c2 = '_' && c3 = '_') || hasTriple (c2 :: c3 :: rest)
  | _ => false

/-! ### The error-propagating embedding (claim C9)

The Go code threads `error` values out of every `regexp2` operation and
panics when `normalizeInitialisms` reports one.  The operations themselves
(`FindStringMatch`, `FindNextMatch`, `Replace`) are total string functions
once the pattern is compiled (compilation happens once at startup from the
fixed table), so in the embedding they always return `Except.ok`; the
definitions below mirror the source's error plumbing branch for branch. -/

/-- `regexp2` `FindStringMatch`/`FindNextMatch` with its error channel. -/
def mfindE (m : Matcher) (s : Str) (start : Nat) : Except String (Option Nat) :=
  Except.ok (mfind m s start)

/-- `regexp2` `Replace` with its error channel. -/
def reReplaceE (m : Matcher) (s repl : Str) (startAt : Nat) (count : Option Nat) :
    Except String Str :=
  Except.ok (reReplace m s repl startAt count)

/-- One iteration of the rule loop with the source's error propagation
(source lines 299-385); note that a failing `FindNextMatch` returns the
empty string with a `nil` error in the source (lines 366-369). -/
def applyRuleE (lowerFirst snake : Bool) (result : Str) (initTrx : initialismTranslator) :
    Except String Str :=
  match initTrx.re with
  | none =>
    if snake then
      let toReplace := '_' :: (initTrx.lower ++ ['_'])
      let r1 := stringsReplace result initTrx.lower toReplace none
      Except.ok (stringsReplace r1 initTrx.upper toReplace none)
    else
      let r0 :=
        if lowerFirst && stringsIndex result initTrx.upper = some 0 then
          stringsReplace result initTrx.upper initTrx.lower (some 1)
        else result
      match stringsIndex r0 initTrx.camel with
      | none => Except.ok r0
      | some 0 =>
        let r1 :=
          if lowerFirst then stringsReplace r0 initTrx.camel initTrx.lower (some 1)
          else r0
        Except.ok (stringsReplace r1 initTrx.camel initTrx.upper none)
      | some _ => Except.ok (stringsReplace r0 initTrx.camel initTrx.upper none)
  | some re =>
    match mfindE re result 0 with
    | Except.error e => Except.error e
    | Except.ok none => Except.ok result
    | Except.ok (some startFrom) =>
      let toReplace :=
        if snake then '_' :: (initTrx.lower ++ ['_']) else initTrx.upper
      if lowerFirst && startFrom = 0 then
        match reReplaceE re result initTrx.lower 0 (some 1) with
        | Except.error e => Except.error e
        | Except.ok r1 =>
          match mfindE re result (startFrom + re.len) with
          | Except.error _ => Except.ok []
          | Except.ok none => Except.ok r1
          | Except.ok (some startFrom2) =>
            match reReplaceE re r1 toReplace startFrom2 none with
            | Except.error e => Except.error e
            | Except.ok r2 => Except.ok r2
      else
        match reReplaceE re result toReplace startFrom none with
        | Except.error e => Except.error e
        | Except.ok r => Except.ok r

/-- The rule loop with error propagation: the first error stops the loop,
as the source's `return "", err` does. -/
def applyRulesE (lowerFirst snake : Bool) : Str → List initialismTranslator →
    Except String Str
  | result, [] => Except.ok result
  | result, t :: rest =>
    match applyRuleE lowerFirst snake result t with
    | Except.error e => Except.error e
    | Except.ok r => applyRulesE lowerFirst snake r rest

/-- `normalizeInitialisms` with its error channel. -/
def normalizeInitialismsE (original : Str) (lowerFirst snake : Bool) :
    Except String Str :=
  match applyRulesE lowerFirst snake original initialisms with
  | Except.error e => Except.error e
  | Except.ok result => Except.ok (if snake then snakeCleanup result else result)

/-- `goName` with the source's panic branches made explicit: an error from
either normalizer pass would abort (source lines 260-269). -/
def goNameE (original : Str) (lowerFirst snake : Bool) : Except String Str :=
  let r0 := if !lowerFirst then toPascal original else original
  match normalizeInitialismsE r0 lowerFirst snake with
  | Except.error e => Except.error e
  | Except.ok r1 =>
    match
      (if lowerFirst then normalizeInitialismsE (toLowerCamel r1) lowerFirst snake
       else Except.ok r1) with
    | Except.error e => Except.error e
    | Except.ok r2 =>
      let r3 := if snake then toSnake r2 else r2
      Except.ok (guardKeyword r3)

/-- `New` with the panic branches of its `goName` calls made explicit. -/
def NewE (original : Str) : Except String Names :=
  match goNameE original false false with
  | Except.error e => Except.error e
  | Except.ok camel =>
    match goNameE original true false with
    | Except.error e => Except.error e
    | Except.ok camelLower =>
      match goNameE original false true with
      | Except.error e => Except.error e
      | Except.ok snake =>
        match goNameE original false true with
        | Except.error e => Except.error e
        | Except.ok snake2 =>
          Except.ok
            { Original := original
              Camel := camel
              CamelLower := camelLower
              Lower := original.map Char.toLower
              Snake := snake
              SnakeStripped := stripNonAlphaNum snake2 }

/-! ### Claim theorems: the orchestrator formulas and concrete behaviour -/

set_option maxRecDepth 12000

/-- The Camel field of `New` is `goName raw false false`. -/
theorem New_Camel (raw : Str) : (New raw).Camel = goName raw false false := by
  simp only [New]

/-- The CamelLower field of `New` is `goName raw true false`. -/
theorem New_CamelLower (raw : Str) : (New raw).CamelLower = goName raw true false := by
  simp only [New]

/-- The Snake field of `New` is `goName raw false true`. -/
theorem New_Snake (raw : Str) : (New raw).Snake = goName raw false true := by
  simp only [New]

/-- The SnakeStripped field of `New` strips the non-alphanumerics of
`goName raw false true`. -/
theorem New_SnakeStripped (raw : Str) :
    (New raw).SnakeStripped = stripNonAlphaNum (goName raw false true) := by
  simp only [New]

/-- `goName` in Camel mode: Pascal-case, one normalizer pass, guard. -/
theorem goName_camel (raw : Str) : goName raw false false =
    guardKeyword (normalizeInitialisms (toPascal raw) false false) := by
  unfold goName
  simp

/-- `goName` in CamelLower mode: normalize the raw string directly, re-cast
through the generic lowerCamel transform, normalize again, guard. -/
theorem goName_lower (raw : Str) : goName raw true false =
    guardKeyword (normalizeInitialisms (toLowerCamel
      (normalizeInitialisms raw true false)) true false) := by
  unfold goName
  simp

/-- `goName` in Snake mode: Pascal-case, one snake-mode normalizer pass, a
generic snake re-cast, guard. -/
theorem goName_snake (raw : Str) : goName raw false true =
    guardKeyword (toSnake (normalizeInitialisms (toPascal raw) false true)) := by
  unfold goName
  simp

/-- Evaluation pipeline for the Camel variant, composed from grounded
intermediate results. -/
theorem camelPipe (raw t0 t1 t2 : Str)
    (h0 : toPascal raw = t0)
    (h1 : normalizeInitialisms t0 false false = t1)
    (h2 : guardKeyword t1 = t2) :
    (New raw).Camel = t2 := by
  rw [New_Camel, goName_camel, h0, h1, h2]

/-- Evaluation pipeline for the CamelLower variant, composed from grounded
intermediate results. -/
theorem lowerPipe (raw t0 t1 t2 t3 : Str)
    (h0 : normalizeInitialisms raw true false = t0)
    (h1 : toLowerCamel t0 = t1)
    (h2 : normalizeInitialisms t1 true false = t2)
    (h3 : guardKeyword t2 = t3) :
    (New raw).CamelLower = t3 := by
  rw [New_CamelLower, goName_lower, h0, h1, h2, h3]

/-- Evaluation pipeline for the Snake variant, composed from grounded
intermediate results. -/
theorem snakePipe (raw t0 t1 t2 t3 : Str)
    (h0 : toPascal raw = t0)
    (h1 : normalizeInitialisms t0 false true = t1)
    (h2 : toSnake t1 = t2)
    (h3 : guardKeyword t2 = t3) :
    (New raw).Snake = t3 := by
  rw [New_Snake, goName_snake, h0, h1, h2, h3]

/-- Evaluation pipeline for the formula the spec claims for the LowerCamel
variant (C1): Pascal-normalize first, then re-cast and normalize again. -/
theorem specLowerPipe (raw t0 t1 t2 t3 t4 : Str)
    (h0 : toPascal raw = t0)
    (h1 : normalizeInitialisms t0 false false = t1)
    (h2 : toLowerCamel t1 = t2)
    (h3 : normalizeInitialisms t2 true false = t3)
    (h4 : guardKeyword t3 = t4) :
    guardKeyword (normalizeInitialisms (toLowerCamel
      (normalizeInitialisms (toPascal raw) false false)) true false) = t4 := by
  rw [h0, h1, h2, h3, h4]

/-- Evaluation pipeline for the formula the spec claims for the Snake
variant (C2): normalizer output guarded directly, with no snake re-cast. -/
theorem specSnakePipe (raw t0 t1 t2 : Str)
    (h0 : toPascal raw = t0)
    (h1 : normalizeInitialisms t0 false true = t1)
    (h2 : guardKeyword t1 = t2) :
    guardKeyword (normalizeInitialisms (toPascal raw) false true) = t2 := by
  rw [h0, h1, h2]

/-- C1: the claim states `LowerCamel =
guard(normalize(toLowerCamel(normalize(toPascal(raw), false, false)), true,
false))`, i.e. that the orchestrator Pascal-normalizes the raw name first.
It does not: for the lower-camel variant `goName` skips `toPascal` and runs
the first normalizer pass directly on the raw string with
`lowerFirst = true`.  At `raw = "AwsVpc"` the code produces `"awsVPC"`
while the claimed formula produces `"awsvpc"`. -/
theorem C1_counterexample :
    (New ("AwsVpc".data)).CamelLower = "awsVPC".data ∧
    guardKeyword (normalizeInitialisms (toLowerCamel
      (normalizeInitialisms (toPascal ("AwsVpc".data)) false false)) true false) =
      "awsvpc".data ∧
    "awsVPC".data ≠ "awsvpc".data :=
  ⟨lowerPipe _ ("awsVPC".data) ("awsVPC".data) ("awsVPC".data) ("awsVPC".data)
      (by decide) (by decide) (by decide) (by decide),
    specLowerPipe _ ("AwsVpc".data) ("AWSVPC".data) ("awsvpc".data) ("awsvpc".data)
      ("awsvpc".data) (by decide) (by decide) (by decide) (by decide) (by decide),
    by decide⟩

/-- C1 (amended): for every raw name, the LowerCamel variant produced by
`New raw` equals `guard(normalize(toLowerCamel(normalize(raw,
lowerFirst=true, snake=false)), lowerFirst=true, snake=false))`: the
orchestrator does not compute a Pascal form first for this variant; it
normalizes the raw string directly with `lowerFirst = true`, re-casts the
result through the generic lowerCamel transform, and runs the normalizer a
second time with `lowerFirst = true`. -/
theorem C1_theorem (raw : Str) :
    (New raw).CamelLower =
      guardKeyword (normalizeInitialisms (toLowerCamel
        (normalizeInitialisms raw true false)) true false) :=
  (New_CamelLower raw).trans (goName_lower raw)

/-- C2: the claim states that the Snake variant is
`guard(normalize(toPascal(raw), lowerFirst=false, snake=true))` with no
generic snake re-casting step, but `goName` applies the generic `toSnake`
transform after the normalizer.  At `raw = "Ja3"` the code produces
`"ja_3"` while the claimed formula produces `"Ja3"`. -/
theorem C2_counterexample :
    (New ("Ja3".data)).Snake = "ja_3".data ∧
    guardKeyword (normalizeInitialisms (toPascal ("Ja3".data)) false true) =
      "Ja3".data ∧
    "ja_3".data ≠ "Ja3".data :=
  ⟨snakePipe _ ("Ja3".data) ("Ja3".data) ("ja_3".data) ("ja_3".data)
      (by decide) (by decide) (by decide) (by decide),
    specSnakePipe _ ("Ja3".data) ("Ja3".data) ("Ja3".data)
      (by decide) (by decide) (by decide),
    by decide⟩

/-- C2 (amended): for every raw name, the Snake variant produced by
`New raw` equals the reserved-word guard applied to
`toSnake(normalize(toPascal(raw), lowerFirst=false, snake=true))`: after
the normalizer's own delimiter cleanup, a further generic snake re-cast is
applied before the guard. -/
theorem C2_theorem (raw : Str) :
    (New raw).Snake =
      guardKeyword (toSnake (normalizeInitialisms (toPascal raw) false true)) :=
  (New_Snake raw).trans (goName_snake raw)

/-- C4: leading-word exception in non-snake mode: an acronym occurrence is
lowercased only at index 0 with `lowerFirst = true`; occurrences not at
index 0 become uppercase regardless.  Concretely `New "Id"` yields Camel
`"ID"` and CamelLower `"id"`, and `New "KeyId"` yields Camel `"KeyID"` and
CamelLower `"keyID"`. -/
theorem C4_theorem :
    (New ("Id".data)).Camel = "ID".data ∧
    (New ("Id".data)).CamelLower = "id".data ∧
    (New ("KeyId".data)).Camel = "KeyID".data ∧
    (New ("KeyId".data)).CamelLower = "keyID".data :=
  ⟨camelPipe _ ("Id".data) ("ID".data) ("ID".data)
      (by decide) (by decide) (by decide),
    lowerPipe _ ("id".data) ("id".data) ("id".data) ("id".data)
      (by decide) (by decide) (by decide) (by decide),
    camelPipe _ ("KeyId".data) ("KeyID".data) ("KeyID".data)
      (by decide) (by decide) (by decide),
    lowerPipe _ ("KeyID".data) ("keyID".data) ("keyID".data) ("keyID".data)
      (by decide) (by decide) (by decide) (by decide)⟩

/-- C5: rule-order dependency: the `"Dbi"` rule fires before the `"Db"`
rule, so `New "DbiResourceId"` yields Camel `"DBIResourceID"`. -/
theorem C5_theorem : (New ("DbiResourceId".data)).Camel = "DBIResourceID".data :=
  camelPipe _ ("DbiResourceId".data) ("DBIResourceID".data) ("DBIResourceID".data)
    (by decide) (by decide) (by decide)

/-- C6: context-sensitive exclusions: the `"Id"` rule does not fire on
occurrences followed by `entifier`, `le`, `entity` or `empotency`, so
`New "Identifier"` yields Camel `"Identifier"` and `New "IdempotencyToken"`
yields Camel `"IdempotencyToken"`. -/
theorem C6_theorem :
    (New ("Identifier".data)).Camel = "Identifier".data ∧
    (New ("IdempotencyToken".data)).Camel = "IdempotencyToken".data :=
  ⟨camelPipe _ ("Identifier".data) ("Identifier".data) ("Identifier".data)
      (by decide) (by decide) (by decide),
    camelPipe _ ("IdempotencyToken".data) ("IdempotencyToken".data)
      ("IdempotencyToken".data) (by decide) (by decide) (by decide)⟩

/-- C8: the reserved-word guard appends a single trailing underscore
exactly when its argument is in the fixed reserved-word list, and it is
applied last, after all casing: `New "Package"` yields CamelLower
`"package_"` and Snake `"package_"`. -/
theorem C8_theorem :
    (∀ s : Str, guardKeyword s = if InStrings s goKeywords then s ++ ['_'] else s) ∧
    (New ("Package".data)).CamelLower = "package_".data ∧
    (New ("Package".data)).Snake = "package_".data :=
  ⟨fun _ => rfl,
    lowerPipe _ ("Package".data) ("package".data) ("package".data) ("package_".data)
      (by decide) (by decide) (by decide) (by decide),
    snakePipe _ ("Package".data) ("Package".data) ("package".data) ("package_".data)
      (by decide) (by decide) (by decide) (by decide)⟩

/-- C10: in non-snake mode with `lowerFirst = true`, a literal rule whose
uppercase form leads the working string has that single leading occurrence
replaced by the lowercase form even when no camel-form occurrence exists:
`New "AIML"` yields CamelLower `"aiml"` and `New "SSEKMSKeyID"` yields
CamelLower `"sseKMSKeyID"`. -/
theorem C10_theorem :
    (New ("AIML".data)).CamelLower = "aiml".data ∧
    (New ("SSEKMSKeyID".data)).CamelLower = "sseKMSKeyID".data :=
  ⟨lowerPipe _ ("aiml".data) ("aiml".data) ("aiml".data) ("aiml".data)
      (by decide) (by decide) (by decide) (by decide),
    lowerPipe _ ("sseKMSKeyID".data) ("sseKMSKeyID".data) ("sseKMSKeyID".data)
      ("sseKMSKeyID".data) (by decide) (by decide) (by decide) (by decide)⟩


/-- Stripping non-alphanumerics leaves no underscore behind. -/
theorem stripNonAlphaNum_no_underscore (s : Str) :
    (stripNonAlphaNum s).contains '_' = false := by
  induction s with
  | nil => rfl
  | cons c rest ih =>
    simp only [stripNonAlphaNum, List.filter] at ih ⊢
    cases hp : (c.isAlpha || c.isDigit) with
    | false => exact ih
    | true =>
      have hc : ('_' == c) = false := by
        cases hq : ('_' == c) with
        | false => rfl
        | true =>
          have he : '_' = c := eq_of_beq hq
          rw [← he] at hp
          exact absurd hp (by decide)
      simp only [List.contains, List.elem, hc] at ih ⊢
      exact ih

/-- C7: for every raw name, the SnakeStripped variant is the Snake variant
with every character that is not an ASCII letter or digit removed; in
particular no underscore (including a reserved-word guard suffix)
survives. -/
theorem C7_theorem (raw : Str) :
    (New raw).SnakeStripped = stripNonAlphaNum ((New raw).Snake) ∧
    ((New raw).SnakeStripped.contains '_') = false := by
  constructor
  · rw [New_SnakeStripped, New_Snake]
  · rw [New_SnakeStripped]
    exact stripNonAlphaNum_no_underscore _

/-- Each rule application propagates no error: the embedded matcher
operations are total. -/
theorem applyRuleE_ok (lf sn : Bool) (result : Str) (t : initialismTranslator) :
    applyRuleE lf sn result t = Except.ok (applyRule lf sn result t) := by
  unfold applyRuleE applyRule mfindE reReplaceE
  cases t.re with
  | none =>
    cases sn with
    | true => rfl
    | false =>
      simp only [Bool.false_eq_true, if_false]
      split <;> rfl
  | some re =>
    cases hm : mfind re result 0 with
    | none => simp only [hm]
    | some startFrom =>
      simp only [hm]
      by_cases h : (lf && decide (startFrom = 0)) = true
      · simp only [if_pos h]
        cases hm2 : mfind re result (startFrom + re.len) with
        | none => simp only [hm2]
        | some s2 => simp only [hm2]
      · simp only [if_neg h]

/-- The whole rule loop propagates no error. -/
theorem applyRulesE_ok (lf sn : Bool) (l : List initialismTranslator) :
    ∀ s : Str, applyRulesE lf sn s l = Except.ok (List.foldl (applyRule lf sn) s l) := by
  induction l with
  | nil => intro s; rfl
  | cons t rest ih =>
    intro s
    simp only [applyRulesE, applyRuleE_ok, List.foldl]
    exact ih (applyRule lf sn s t)

/-- The normalizer never reports an error. -/
theorem normalizeInitialismsE_ok (s : Str) (lf sn : Bool) :
    normalizeInitialismsE s lf sn = Except.ok (normalizeInitialisms s lf sn) := by
  unfold normalizeInitialismsE normalizeInitialisms applyAllRules
  rw [applyRulesE_ok]

/-- `goName` never reaches its panic branch. -/
theorem goNameE_ok (s : Str) (lf sn : Bool) :
    goNameE s lf sn = Except.ok (goName s lf sn) := by
  unfold goNameE goName
  cases lf with
  | false => simp [normalizeInitialismsE_ok]
  | true => simp [normalizeInitialismsE_ok]

/-- C9: `New` is total over arbitrary input strings: every error/panic
branch threaded through the rule loop is unreachable for the fixed rule
table, and `New` always produces its `Names` value. -/
theorem C9_theorem (raw : Str) : NewE raw = Except.ok (New raw) := by
  unfold NewE
  rw [goNameE_ok, goNameE_ok, goNameE_ok]
  simp only [New]


theorem hasDD_tail {c : Char} {t : Str} (h : hasDD (c :: t) = false) : hasDD t = false := by
  cases t with
  | nil => rfl
  | cons c2 rest =>
    unfold hasDD at h
    exact (Bool.or_eq_false_iff.mp h).2

theorem hasTriple_tail {c : Char} {t : Str} (h : hasTriple (c :: t) = false) :
    hasTriple t = false := by
  cases t with
  | nil => rfl
  | cons c2 rest =>
    cases rest with
    | nil => rfl
    | cons c3 rest2 =>
      unfold hasTriple at h
      exact (Bool.or_eq_false_iff.mp h).2

theorem prefixDD_head {c : Char} {rest : Str}
    (hp : (['_', '_'].isPrefixOf (c :: rest)) = true) : c = '_' := by
  unfold List.isPrefixOf at hp
  cases rest with
  | nil => simp [List.isPrefixOf] at hp
  | cons r0 rest2 =>
    rw [Bool.and_eq_true] at hp
    exact (eq_of_beq hp.1).symm

theorem collapse_head (fuel : Nat) (count : Option Nat) (s : Str) :
    (replAux ['_', '_'] ['_'] fuel count s).head? = s.head? := by
  cases fuel with
  | zero => rfl
  | succ fuel =>
    cases count with
    | some n =>
      cases n with
      | zero => rfl
      | succ n =>
        cases s with
        | nil => rfl
        | cons c rest =>
          unfold replAux
          by_cases hp : (['_', '_'].isPrefixOf (c :: rest)) = true
          · have hc : c = '_' := prefixDD_head hp
            subst hc
            simp only [hp, if_true]
            rfl
          · simp only [hp, if_false]
            rfl
    | none =>
      cases s with
      | nil => rfl
      | cons c rest =>
        unfold replAux
        by_cases hp : (['_', '_'].isPrefixOf (c :: rest)) = true
        · have hc : c = '_' := prefixDD_head hp
          subst hc
          simp only [hp, if_true]
          rfl
        · simp only [hp, if_false]
          rfl

theorem replAux_nil (fuel : Nat) (count : Option Nat) :
    replAux ['_', '_'] ['_'] fuel count [] = [] := by
  cases fuel with
  | zero => rfl
  | succ fuel =>
    cases count with
    | none => rfl
    | some n => cases n <;> rfl

theorem collapse_noDD : ∀ (fuel : Nat) (s : Str), s.length ≤ fuel →
    hasTriple s = false → hasDD (replAux ['_', '_'] ['_'] fuel none s) = false := by
  intro fuel
  induction fuel with
  | zero =>
    intro s hle _
    have hnil : s = [] := List.eq_nil_of_length_eq_zero (Nat.le_zero.mp hle)
    subst hnil
    rfl
  | succ fuel ih =>
    intro s hle htri
    cases s with
    | nil => rfl
    | cons c rest =>
      unfold replAux
      by_cases hp : (['_', '_'].isPrefixOf (c :: rest)) = true
      · have hc : c = '_' := prefixDD_head hp
        subst hc
        cases rest with
        | nil => simp [List.isPrefixOf] at hp
        | cons r0 rest2 =>
          have hr0 : r0 = '_' := by
            unfold List.isPrefixOf at hp
            rw [Bool.and_eq_true] at hp
            have hp2 := hp.2
            unfold List.isPrefixOf at hp2
            rw [Bool.and_eq_true] at hp2
            exact (eq_of_beq hp2.1).symm
          subst hr0
          simp only [hp, if_true]
          have hmapn : (Option.map (fun x => x - 1) (none : Option Nat)) = none := rfl
          rw [hmapn]
          have hdrop : List.drop (['_', '_'].length) ('_' :: '_' :: rest2) = rest2 := rfl
          rw [hdrop]
          have htri2 : hasTriple rest2 = false := hasTriple_tail (hasTriple_tail htri)
          have hlen2 : rest2.length ≤ fuel := by
            simp only [List.length_cons] at hle
            omega
          have hu := ih rest2 hlen2 htri2
          have hu_head := collapse_head fuel none rest2
          cases hu_val : replAux ['_', '_'] ['_'] fuel none rest2 with
          | nil => rfl
          | cons v u2 =>
            rw [hu_val] at hu_head hu
            cases rest2 with
            | nil =>
              rw [replAux_nil] at hu_val
              exact absurd hu_val (by simp)
            | cons w rest3 =>
              have hvw : v = w := by
                simp only [List.head?] at hu_head
                exact Option.some.inj hu_head
              have hwne : decide (w = '_') = false := by
                unfold hasTriple at htri
                rcases Bool.or_eq_false_iff.mp htri with ⟨h1, _⟩
                simpa using h1
              show hasDD ('_' :: v :: u2) = false
              unfold hasDD
              rw [Bool.or_eq_false_iff]
              constructor
              · rw [hvw, hwne]
                simp
              · exact hu
      · have hpf : (['_', '_'].isPrefixOf (c :: rest)) = false := by
          cases h2 : (['_', '_'].isPrefixOf (c :: rest)) with
          | false => rfl
          | true => exact absurd h2 hp
        simp only [hpf, Bool.false_eq_true, if_false]
        have htri2 : hasTriple rest = false := hasTriple_tail htri
        have hlen2 : rest.length ≤ fuel := by
          simp only [List.length_cons] at hle
          omega
        have hu := ih rest hlen2 htri2
        have hu_head := collapse_head fuel none rest
        cases hu_val : replAux ['_', '_'] ['_'] fuel none rest with
        | nil => rfl
        | cons v u2 =>
          rw [hu_val] at hu_head hu
          cases rest with
          | nil =>
            rw [replAux_nil] at hu_val
            exact absurd hu_val (by simp)
          | cons w rest3 =>
            have hvw : v = w := by
              simp only [List.head?] at hu_head
              exact Option.some.inj hu_head
            show hasDD (c :: v :: u2) = false
            unfold hasDD
            rw [Bool.or_eq_false_iff]
            constructor
            · by_cases hcu : c = '_'
              · by_cases hvu : v = '_'
                · exfalso
                  apply hp
                  subst hcu
                  rw [hvu] at hvw
                  rw [← hvw]
                  simp [List.isPrefixOf]
                · simp [hvu]
              · simp [hcu]
            · exact hu

theorem trimHead_head (s : Str) : (trimHead s).head? ≠ some '_' := by
  induction s with
  | nil => simp [trimHead]
  | cons c rest ih =>
    unfold trimHead at ih ⊢
    by_cases hc : c = '_'
    · rw [List.dropWhile_cons_of_pos (by simp [hc])]
      exact ih
    · rw [List.dropWhile_cons_of_neg (by simp [hc])]
      simp [hc]

theorem trimHead_noDD {s : Str} (h : hasDD s = false) : hasDD (trimHead s) = false := by
  induction s with
  | nil => rfl
  | cons c rest ih =>
    unfold trimHead at ih ⊢
    by_cases hc : c = '_'
    · rw [List.dropWhile_cons_of_pos (by simp [hc])]
      exact ih (hasDD_tail h)
    · rw [List.dropWhile_cons_of_neg (by simp [hc])]
      exact h

theorem trimTail_head (s : Str) : trimTail s = [] ∨ (trimTail s).head? = s.head? := by
  cases s with
  | nil => exact Or.inl rfl
  | cons c rest =>
    cases htt : trimTail rest with
    | nil =>
      by_cases hc : c = '_'
      · refine Or.inl ?_
        simp only [trimTail, htt]
        rw [if_pos hc]
      · refine Or.inr ?_
        simp only [trimTail, htt]
        rw [if_neg hc]
        simp [List.head?]
    | cons r0 r1 =>
      refine Or.inr ?_
      simp only [trimTail, htt]
      simp [List.head?]

theorem trimTail_last (s : Str) : (trimTail s).getLast? ≠ some '_' := by
  induction s with
  | nil => simp [trimTail]
  | cons c rest ih =>
    cases htt : trimTail rest with
    | nil =>
      simp only [trimTail, htt]
      by_cases hc : c = '_'
      · rw [if_pos hc]
        simp
      · rw [if_neg hc]
        simp [hc]
    | cons r0 r1 =>
      simp only [trimTail, htt]
      rw [htt] at ih
      rw [List.getLast?_cons_cons]
      exact ih

theorem trimTail_noDD {s : Str} (h : hasDD s = false) : hasDD (trimTail s) = false := by
  induction s with
  | nil => rfl
  | cons c rest ih =>
    have hrest : hasDD rest = false := hasDD_tail h
    have hu := ih hrest
    cases htt : trimTail rest with
    | nil =>
      simp only [trimTail, htt]
      by_cases hc : c = '_'
      · rw [if_pos hc]
        rfl
      · rw [if_neg hc]
        rfl
    | cons r0 r1 =>
      simp only [trimTail, htt]
      rw [htt] at hu
      rcases trimTail_head rest with he | hh
      · rw [he] at htt
        exact absurd htt (by simp)
      · rw [htt] at hh
        cases rest with
        | nil => simp at hh
        | cons w rest2 =>
          have hr0w : r0 = w := by
            simp only [List.head?] at hh
            exact Option.some.inj hh
          unfold hasDD at h ⊢
          rcases Bool.or_eq_false_iff.mp h with ⟨h1, _⟩
          rw [Bool.or_eq_false_iff]
          exact ⟨by rw [hr0w]; exact h1, hu⟩

theorem snakeCleanup_head (r : Str) : (snakeCleanup r).head? ≠ some '_' := by
  unfold snakeCleanup stringsTrimUnderscore
  rcases trimTail_head (trimHead (stringsReplace r ['_', '_'] ['_'] none)) with he | hh
  · rw [he]
    simp
  · rw [hh]
    exact trimHead_head _

theorem snakeCleanup_last (r : Str) : (snakeCleanup r).getLast? ≠ some '_' := by
  unfold snakeCleanup stringsTrimUnderscore
  exact trimTail_last _

theorem snakeCleanup_noDD {r : Str} (h : hasTriple r = false) :
    hasDD (snakeCleanup r) = false := by
  unfold snakeCleanup stringsTrimUnderscore stringsReplace
  rw [if_neg (by simp)]
  exact trimTail_noDD (trimHead_noDD (collapse_noDD r.length r (Nat.le_refl _) h))

/-- C3: the claim asserts that for every input string the snake-mode result
has no run of two or more consecutive underscores.  The cleanup is a single
non-overlapping `strings.Replace("__", "_")` pass, so a run of three
underscores survives as a double: `normalizeInitialisms "a___b" false true`
is `"a__b"`, which still contains `"__"`. -/
theorem C3_counterexample :
    normalizeInitialisms ("a___b".data) false true = "a__b".data ∧
    hasDD (normalizeInitialisms ("a___b".data) false true) = true := by
  have h : normalizeInitialisms ("a___b".data) false true = "a__b".data := by decide
  exact ⟨h, by rw [h]; decide⟩

/-- C3 (amended): for every input string and either lowerFirst mode, the
snake-mode normalizer result has no leading and no trailing underscore, and
whenever the string produced by the rule loop contains no run of three or
more consecutive underscores, the cleanup's single replacement pass leaves
no run of two consecutive underscores. -/
theorem C3_theorem (s : Str) (lf : Bool) :
    (normalizeInitialisms s lf true).head? ≠ some '_' ∧
    (normalizeInitialisms s lf true).getLast? ≠ some '_' ∧
    (hasTriple (applyAllRules s lf true) = false →
      hasDD (normalizeInitialisms s lf true) = false) := by
  have hn : normalizeInitialisms s lf true = snakeCleanup (applyAllRules s lf true) := by
    unfold normalizeInitialisms
    simp
  rw [hn]
  exact ⟨snakeCleanup_head _, snakeCleanup_last _, fun h => snakeCleanup_noDD h⟩

/-- C3 witness: the amended statement instantiated at `"a__b"`, whose
post-rules form has no triple underscore. -/
theorem C3_witness :
    hasDD (normalizeInitialisms ("a__b".data) false true) = false :=
  (C3_theorem ("a__b".data) false).2.2 (by decide)
end AwsNames
